import Mathlib

/-!
A verification development for the SyntraWallet polling watcher engine.

The repository implements several "watcher" classes that poll a remote
source, deduplicate results against per-key memory, retry transient
failures with backoff, and emit change/discovery events.  This file gives
a shallow embedding of the relevant operations, translated from the
TypeScript sources:

* `src/watchers/TransactionWatcher.ts` (`TxW` namespace),
* the full `OuterEventWatcher` variant in `src/outer/OuterDataProcessor.ts`
  (`OuterW` namespace), and the simple variant in
  `src/outer/OuterEventWatcher.ts` (`OuterSimple` namespace),
* `src/watchers/BalanceWatcher.ts` (`BalW` namespace) and the
  `BalancePoller` variant in `src/unnamed/part_018` (`BalP` namespace),
* the `BalanceWatcher` variant of `src/unnamed/part_013` (`BwBig`),
* `WebhookSendout.computeDelay` from `src/README.md` (`Ws` namespace).

Modelling conventions:
* Item ids (transaction hashes, event ids) are abstract strings with
  decidable equality in the source; they are modelled as `Nat`.
* JS `number` values (balances, blocks, raw timestamps) are modelled as
  `Int`; the `NaN` sentinel used by `BalanceWatcher.lastBalances` is
  modelled as `none : Option Int` (for every real number `v`,
  `NaN !== v` holds, which the `Option` model reproduces).
* A JS `Set` preserves insertion order; it is modelled as a `List` with
  `Set.has` as `List.contains`, `Set.add` as append-if-absent and
  `Set.delete` as `List.erase`.  A JS `Map` is modelled as an
  association list.
* The random jitter `Math.floor(Math.random() * 200)` is modelled as an
  explicit argument `jitter` ranging over `0..199`.
-/

namespace TxW

/-- A transaction item after `normalizeTxs` (`hash` nonempty, `block` and
`time` finite numbers). -/
structure TxItem where
  hash : Nat
  block : Int
  time : Int
deriving DecidableEq

/-- A raw explorer result entry; `none` fields model missing or
non-string/non-finite JSON values. -/
structure RawTx where
  hash : Option Nat
  block : Option Int
  time : Option Int
deriving DecidableEq

/-- Model of `normalizeTxs` from TransactionWatcher.ts: keep entries whose hash is a
nonempty string and whose block/time are finite numbers. -/
def normalizeTxs : List RawTx → List TxItem
  | [] => []
  | r :: rest =>
    match r.hash, r.block, r.time with
    | some h, some b, some t => ⟨h, b, t⟩ :: normalizeTxs rest
    | _, _, _ => normalizeTxs rest

/-- Model of `toMillis` from TransactionWatcher.ts: accept seconds or milliseconds
(`t > 1e12` means already milliseconds). -/
def toMillis (t : Int) : Int :=
  if t > 1000000000000 then t else t * 1000

/-- The per-address state `{ set, order, lastBlock }` of
`TransactionWatcher.seen`. -/
structure AddrState where
  set : List Nat
  order : List Nat
  lastBlock : Option Int
deriving DecidableEq

def emptyState : AddrState := ⟨[], [], none⟩

/-- JS `Set.add`: no-op when the element is present, else append. -/
def setAdd (s : List Nat) (x : Nat) : List Nat :=
  if s.contains x then s else s ++ [x]

/-- Model of `TransactionWatcher.markSeen`: push the hash onto `set` and `order`;
when `order` exceeds `maxSeenPerAddress`, shift the oldest entry out of
`order` and delete it from `set`. -/
def markSeen (maxSeen : Nat) (st : AddrState) (h : Nat) : AddrState :=
  let s := setAdd st.set h
  let o := st.order ++ [h]
  if maxSeen < o.length then
    match o with
    | [] => { st with set := s, order := o }
    | drop :: o2 => { st with set := s.erase drop, order := o2 }
  else { st with set := s, order := o }

/-- A `"tx"` event payload. -/
structure TxEvent where
  walletAddress : String
  txHash : Nat
  blockNumber : Int
  timestamp : Int
deriving DecidableEq

/-- The inner loop of `TransactionWatcher.tick` for one address: skip
hashes already in the seen set, otherwise emit, mark seen and advance
`lastBlock`.  Events are returned in emission order. -/
def processAddr (maxSeen : Nat) (addr : String) :
    AddrState → List TxItem → AddrState × List TxEvent
  | st, [] => (st, [])
  | st, tx :: rest =>
    if st.set.contains tx.hash then processAddr maxSeen addr st rest
    else
      let st1 := markSeen maxSeen st tx.hash
      let st2 : AddrState :=
        { st1 with lastBlock :=
            match st1.lastBlock with
            | none => some tx.block
            | some b => some (max b tx.block) }
      let res := processAddr maxSeen addr st2 rest
      (res.1, ⟨addr, tx.hash, tx.block, toMillis tx.time⟩ :: res.2)

/-- Consecutive ticks for a single address: each element of `ticks` is the
(normalized) fetch result of one tick. -/
def runAddr (maxSeen : Nat) (addr : String) :
    AddrState → List (List TxItem) → AddrState × List TxEvent
  | st, [] => (st, [])
  | st, batch :: more =>
    let r1 := processAddr maxSeen addr st batch
    let r2 := runAddr maxSeen addr r1.1 more
    (r2.1, r1.2 ++ r2.2)

/-- All item ids of a run, one tick after another, in provider order. -/
def runIds (ticks : List (List TxItem)) : List Nat :=
  (ticks.map (fun b => b.map TxItem.hash)).flatten

/-- First-occurrence list of the ids of `l` not already in `seen`:
the ids that an identity-dedup pass over `l` would deliver. -/
def fresh : List Nat → List Nat → List Nat
  | [], _ => []
  | x :: xs, seen =>
    if seen.contains x then fresh xs seen else x :: fresh xs (seen ++ [x])

/-- Full watcher state of a `TransactionWatcher` instance.  `timers` lists
the currently armed repeating timers (their intervals); `intervalId` is
the handle of the armed timer, if any. -/
structure Watcher where
  pollIntervalMs : Int
  addresses : List String
  seen : List (String × AddrState)
  intervalId : Option Nat
  timers : List Int
  ticking : Bool
deriving DecidableEq

/-- Model of `String.prototype.trim`: drop leading and trailing whitespace.
(Executable model; the builtin trim of Lean is extensionally the same but
does not reduce in the kernel.) -/
def jsTrim (s : String) : String :=
  let cs := s.toList.dropWhile Char.isWhitespace
  String.mk ((cs.reverse.dropWhile Char.isWhitespace).reverse)

/-- Model of `TransactionWatcher.addAddress`: trim, ignore empty keys, add the
address and (when absent) a fresh seen-state. -/
def addAddress (w : Watcher) (address : String) : Watcher :=
  let key := jsTrim address
  if key = "" then w
  else if w.addresses.contains key then w
  else
    { w with
      addresses := w.addresses ++ [key]
      seen :=
        if (w.seen.lookup key).isNone then w.seen ++ [(key, emptyState)]
        else w.seen }

/-- Model of `TransactionWatcher.removeAddress`: drop the address and its seen
memory. -/
def removeAddress (w : Watcher) (address : String) : Watcher :=
  let key := jsTrim address
  { w with
    addresses := w.addresses.erase key
    seen := w.seen.filter (fun p => !(p.1 == key)) }

/-- Replace (or insert) the per-address state in the seen map. -/
def mapSet (m : List (String × AddrState)) (key : String) (st : AddrState) :
    List (String × AddrState) :=
  match m with
  | [] => [(key, st)]
  | p :: rest => if p.1 == key then (key, st) :: rest else p :: mapSet rest key st

/-- The address loop of `TransactionWatcher.tick`: one fetch per address
(the returned `Nat` counts fetches issued), normalization, then the
dedup/emit loop.  Empty normalized batches are skipped (`continue`). -/
def tickLoop (maxSeen : Nat) (results : String → List RawTx) :
    List String → List (String × AddrState) →
    List (String × AddrState) × List TxEvent × Nat
  | [], seen => (seen, [], 0)
  | addr :: rest, seen =>
    let norm := normalizeTxs (results addr)
    let step :=
      if norm.isEmpty then (seen, ([] : List TxEvent))
      else
        let st := ((seen.lookup addr).getD emptyState)
        let r := processAddr maxSeen addr st norm
        (mapSet seen addr r.1, r.2)
    let next := tickLoop maxSeen results rest step.1
    (next.1, step.2 ++ next.2.1, next.2.2 + 1)

/-- Model of `TransactionWatcher.tick`: a timer fire on a watcher whose `ticking`
flag is set returns immediately (no fetches, no events, no queued work);
otherwise it runs the address loop with the flag set and clears it at the
end. -/
def tick (maxSeen : Nat) (w : Watcher) (results : String → List RawTx) :
    Watcher × List TxEvent × Nat :=
  if w.ticking then (w, [], 0)
  else
    let r := tickLoop maxSeen results w.addresses w.seen
    ({ w with seen := r.1 }, r.2.1, r.2.2)

/-- Model of `TransactionWatcher.start`: register the addresses, then return early
when a timer is already armed; otherwise arm one repeating timer at
`pollIntervalMs`.  (Listener registration and the asynchronous immediate
tick do not change the scheduling state and are elided.) -/
def start (w : Watcher) (addrs : List String) : Watcher :=
  let w1 := addrs.foldl addAddress w
  if w1.intervalId.isSome then w1
  else
    { w1 with
      intervalId := some (w1.timers.length + 1)
      timers := w1.timers ++ [w1.pollIntervalMs] }

/-- Model of `TransactionWatcher.stop`: clear the armed timer and the ticking
flag. -/
def stop (w : Watcher) : Watcher :=
  { w with intervalId := none, timers := [], ticking := false }

end TxW

namespace OuterW

/-- A sanitized outer event (`sanitizeEvent` guarantees `id` and a finite
`timestamp`); `payload`/`type` carry no logic and are elided. -/
structure OuterEvent where
  id : Nat
  timestamp : Int
deriving DecidableEq

/-- Watcher dedup state: seen-id set, FIFO insertion order, and the
`since` cursor `lastTimestamp`. -/
structure WState where
  seen : List Nat
  order : List Nat
  lastTimestamp : Option Int
deriving DecidableEq

def emptyState : WState := ⟨[], [], none⟩

/-- Model of `OuterEventWatcher.markSeen`: add the id; when `order` exceeds
`maxSeenIds`, shift the oldest id out and delete it from the set. -/
def markSeen (maxSeenIds : Nat) (st : WState) (i : Nat) : WState :=
  let s := TxW.setAdd st.seen i
  let o := st.order ++ [i]
  if maxSeenIds < o.length then
    match o with
    | [] => { st with seen := s, order := o }
    | drop :: o2 => { st with seen := s.erase drop, order := o2 }
  else { st with seen := s, order := o }

/-- Stable insertion used to model
`events.sort((a, b) => a.timestamp - b.timestamp)`. -/
def insertByTs (e : OuterEvent) : List OuterEvent → List OuterEvent
  | [] => [e]
  | x :: xs =>
    if x.timestamp ≤ e.timestamp then x :: insertByTs e xs else e :: x :: xs

/-- Sort a batch ascending by timestamp. -/
def sortByTs : List OuterEvent → List OuterEvent
  | [] => []
  | x :: xs => insertByTs x (sortByTs xs)

/-- The dedup/emit loop of `OuterEventWatcher.tick` over the (sorted)
batch: skip seen ids, otherwise mark seen, emit and advance the cursor. -/
def processEvents (maxSeenIds : Nat) :
    WState → List OuterEvent → WState × List OuterEvent
  | st, [] => (st, [])
  | st, evt :: rest =>
    if st.seen.contains evt.id then processEvents maxSeenIds st rest
    else
      let st1 := markSeen maxSeenIds st evt.id
      let st2 : WState :=
        { st1 with lastTimestamp :=
            match st1.lastTimestamp with
            | none => some evt.timestamp
            | some t => if t < evt.timestamp then some evt.timestamp else some t }
      let res := processEvents maxSeenIds st2 rest
      (res.1, evt :: res.2)

/-- The body of `OuterEventWatcher.tick`: sort the fetched batch ascending
by timestamp, then run the dedup/emit loop. -/
def tickBody (maxSeenIds : Nat) (st : WState) (events : List OuterEvent) :
    WState × List OuterEvent :=
  processEvents maxSeenIds st (sortByTs events)

/-- Engine-level state: lifecycle flags plus the dedup state. -/
structure Engine where
  isRunning : Bool
  ticking : Bool
  st : WState
deriving DecidableEq

/-- Model of `OuterEventWatcher.tick` including its guard
`if (!this.isRunning || this.ticking) return`: a fire during an in-flight
tick performs no fetch (the `Nat` counts fetches issued) and emits
nothing. -/
def tick (maxSeenIds : Nat) (e : Engine) (events : List OuterEvent) :
    Engine × List OuterEvent × Nat :=
  if !e.isRunning || e.ticking then (e, [], 0)
  else
    let r := tickBody maxSeenIds e.st events
    ({ e with st := r.1 }, r.2, 1)

end OuterW

namespace OuterSimple

/-- Scheduling state of the simple `OuterEventWatcher`
(src/outer/OuterEventWatcher.ts): seen ids, running flag and armed
timers. -/
structure Watcher where
  pollIntervalMs : Int
  seen : List Nat
  isRunning : Bool
  intervalId : Option Nat
  timers : List Int
deriving DecidableEq

/-- Its `start`: warn and return when already running, else arm one
repeating timer. -/
def start (w : Watcher) : Watcher :=
  if w.isRunning then w
  else
    { w with
      isRunning := true
      intervalId := some (w.timers.length + 1)
      timers := w.timers ++ [w.pollIntervalMs] }

/-- Its `stop`: clear the timer and the running flag. -/
def stop (w : Watcher) : Watcher :=
  { w with intervalId := none, timers := [], isRunning := false }

end OuterSimple

namespace BwBig

/-- Scheduling state of the `BalanceWatcher` variant in
src/unnamed/part_013. -/
structure Watcher where
  pollIntervalMs : Int
  addresses : List String
  running : Bool
  intervalId : Option Nat
  timers : List Int
deriving DecidableEq

/-- Its `start`: return when already running; throw when no addresses are
set; else arm one repeating timer (the immediate `pollOnce` is
asynchronous and elided). -/
def start (w : Watcher) : Except String Watcher :=
  if w.running then .ok w
  else if w.addresses = [] then .error "No addresses set. Call setAddresses first"
  else
    .ok { w with
          running := true
          intervalId := some (w.timers.length + 1)
          timers := w.timers ++ [w.pollIntervalMs] }

end BwBig

namespace BalW

/-- One poll step of `BalanceWatcher` (src/watchers/BalanceWatcher.ts) for
one address: `lastBalances` starts at `NaN` (modelled `none`); emit a
change when `oldBal !== newBal`, with `oldBalance` coerced to the new
value when the old one is `NaN`.  Returns the updated last value and the
emitted `(oldBalance, newBalance)` pair, if any. -/
def step (last : Option Int) (newBal : Int) : Option Int × Option (Int × Int) :=
  match last with
  | none => (some newBal, some (newBal, newBal))
  | some oldBal =>
    if oldBal = newBal then (some oldBal, none)
    else (some newBal, some (oldBal, newBal))

/-- Successive poll steps for one address over the fetched values. -/
def run : Option Int → List Int → List (Int × Int)
  | _, [] => []
  | last, v :: vs =>
    let r := step last v
    match r.2 with
    | some e => e :: run r.1 vs
    | none => run r.1 vs

/-- The concurrency limiter (`pLimit`): `active` running tasks, `queued`
waiting tasks. -/
structure Limiter where
  active : Nat
  queued : Nat
deriving DecidableEq

/-- Submitting a task to the limiter: run it when a slot is free,
otherwise queue it. -/
def submit (concurrency : Nat) (L : Limiter) : Limiter :=
  if L.active < concurrency then { active := L.active + 1, queued := L.queued }
  else { L with queued := L.queued + 1 }

/-- One timer fire of the interval callback of `BalanceWatcher.start`: it has
no overlap guard and unconditionally submits one fetch task per address
to the limiter.  Returns the limiter state and the number of tasks
submitted by this fire. -/
def fire (concurrency : Nat) (addrs : List String) (L : Limiter) :
    Limiter × Nat :=
  (addrs.foldl (fun acc _ => submit concurrency acc) L, addrs.length)

/-- The `BalanceWatcher` constructor checks
(src/watchers/BalanceWatcher.ts lines 46-57), in source order. -/
def ctor (rpcEndpoint : String) (pollIntervalMs concurrency : Option Int) :
    Except String (Int × Int) :=
  let p := pollIntervalMs.getD 15000
  let c := concurrency.getD 5
  if rpcEndpoint = "" then .error "rpcEndpoint is required"
  else if p < 1000 then .error "pollIntervalMs must be at least 1000ms"
  else if c < 1 then .error "concurrency must be a positive integer"
  else .ok (p, c)

end BalW

namespace BalP

/-- One poll step of `BalancePoller` (src/unnamed/part_018): last values
start out at `0`; emit `(oldBal, newBal)` when they differ. -/
def step (last : Int) (newBal : Int) : Int × Option (Int × Int) :=
  if newBal = last then (last, none) else (newBal, some (last, newBal))

/-- Successive poll steps for one address. -/
def run : Int → List Int → List (Int × Int)
  | _, [] => []
  | last, v :: vs =>
    let r := step last v
    match r.2 with
    | some e => e :: run r.1 vs
    | none => run r.1 vs

end BalP

namespace TxW

/-- The configuration a `TransactionWatcher` ends up with; the constructor
(src/watchers/TransactionWatcher.ts lines 58-71) clamps instead of
validating. -/
structure Config where
  pollIntervalMs : Int
  timeoutMs : Int
  retries : Int
  backoffMs : Int
  maxSeenPerAddress : Int
deriving DecidableEq

/-- The `TransactionWatcher` constructor: the only synchronous failure is
an empty endpoint; every numeric option is silently clamped
(`Math.max(250, pollIntervalMs ?? 15000)` and so on). -/
def ctor (apiEndpoint : String)
    (pollIntervalMs timeoutMs retries backoffMs maxSeenPerAddress : Option Int) :
    Except String Config :=
  if apiEndpoint = "" then .error "apiEndpoint is required"
  else
    .ok
      { pollIntervalMs := max 250 (pollIntervalMs.getD 15000)
        timeoutMs := max 250 (timeoutMs.getD 7000)
        retries := max 0 (retries.getD 2)
        backoffMs := max 1 (backoffMs.getD 300)
        maxSeenPerAddress := max 100 (maxSeenPerAddress.getD 5000) }

end TxW

namespace Retry

/-- The observable outcome of one fetch attempt, as classified by the
retry loops: a parsed success, a non-ok HTTP response (with an optional
numeric Retry-After, in seconds), an `AbortError` fired by the
per-attempt timeout, or any other thrown (network) error. -/
inductive AttemptOutcome where
  | ok (value : Nat)
  | httpRes (status : Nat) (retryAfter : Option Nat)
  | timeout
  | netErr
deriving DecidableEq

/-- The error finally propagated to the caller. -/
inductive FetchErr where
  | http (status : Nat)
  | timeout
  | net
deriving DecidableEq

/-- Statuses for which `TransactionWatcher.fetchWithRetry` honors Retry-After (429/5xx). -/
def txRetryStatus (s : Nat) : Bool :=
  s == 429 || (500 ≤ s && s ≤ 599)

/-- Statuses for `OuterEventWatcher.getWithRetry`, which additionally treats 408 as retryable. -/
def outerRetryStatus (s : Nat) : Bool :=
  s == 408 || s == 429 || (500 ≤ s && s ≤ 599)

/-- The shared attempt loop of `TransactionWatcher.fetchWithRetry` and
`OuterEventWatcher.getWithRetry` (`for attempt = 1 .. retries + 1`),
driven by the outcome trace of each attempt.  Returns the result and the
index of the last attempt performed.  Control flow of the source:

* success returns immediately;
* a non-ok response with a retryable status and attempts remaining
  sleeps (Retry-After aware) and continues;
* any other non-ok response is thrown, lands in the same `catch`, is not
  an abort, and is therefore also retried while attempts remain — the
  status classification only selects the delay, never stops the loop;
* an `AbortError` (per-attempt timeout) sets `lastErr` and breaks out
  immediately (`attempt <= retries && !isAbort` is false);
* any other error is retried while attempts remain.

`fuel` is `retries + 2 - attempt`, so it never reaches `0` on the calls
below; the `0` case is unreachable filler. -/
def runAttempts (retryStatus : Nat → Bool) (retries : Nat)
    (trace : Nat → AttemptOutcome) : Nat → Nat → Except FetchErr Nat × Nat
  | attempt, 0 => (.error .net, attempt)
  | attempt, fuel + 1 =>
    match trace attempt with
    | .ok v => (.ok v, attempt)
    | .httpRes s _ =>
      if attempt ≤ retries && retryStatus s then
        runAttempts retryStatus retries trace (attempt + 1) fuel
      else if attempt ≤ retries then
        runAttempts retryStatus retries trace (attempt + 1) fuel
      else (.error (.http s), attempt)
    | .timeout => (.error .timeout, attempt)
    | .netErr =>
      if attempt ≤ retries then
        runAttempts retryStatus retries trace (attempt + 1) fuel
      else (.error .net, attempt)

/-- Model of `TransactionWatcher.fetchWithRetry`. -/
def fetchWithRetry (retries : Nat) (trace : Nat → AttemptOutcome) :
    Except FetchErr Nat × Nat :=
  runAttempts txRetryStatus retries trace 1 (retries + 1)

/-- Model of `OuterEventWatcher.getWithRetry`. -/
def getWithRetry (retries : Nat) (trace : Nat → AttemptOutcome) :
    Except FetchErr Nat × Nat :=
  runAttempts outerRetryStatus retries trace 1 (retries + 1)

/-- An attempt the loop retries past: any non-ok HTTP response or a
non-abort network error (with budget remaining, supplied separately). -/
def continues (o : AttemptOutcome) : Prop :=
  (∃ s ra, o = .httpRes s ra) ∨ o = .netErr

/-- Model of `computeDelay` from TransactionWatcher.ts (identically
`computeRetryDelay` in the full OuterEventWatcher): a numeric Retry-After
header (seconds) overrides; otherwise quadratic backoff plus a jitter in
`0..199`, with no cap. -/
def computeDelay (base attempt : Nat) (retryAfterSecs : Option Nat)
    (jitter : Nat) : Nat :=
  match retryAfterSecs with
  | some n => n * 1000
  | none => base * attempt * attempt + jitter

end Retry

namespace Ws

/-- Model of `WebhookSendout.computeDelay` from src/README.md: Retry-After is
clamped to `maxBackoffMs`; otherwise the quadratic term alone is capped
at `maxBackoffMs`, and when jitter is enabled a jitter in `0..199` is
added after capping. -/
def computeDelay (backoffMs maxBackoffMs attempt : Nat)
    (retryAfterSecs : Option Nat) (jitterOn : Bool) (jitter : Nat) : Nat :=
  match retryAfterSecs with
  | some n => min (n * 1000) maxBackoffMs
  | none =>
    let base := min (backoffMs * attempt * attempt) maxBackoffMs
    if jitterOn then base + jitter else base

end Ws

/-- At most one repeating poll timer is armed, and none when
`intervalId` is unset. -/
def TxW.timerInv (w : TxW.Watcher) : Prop :=
  (w.intervalId = none → w.timers = []) ∧ w.timers.length ≤ 1

/-- Same single-timer invariant for the simple OuterEventWatcher, keyed
on its `isRunning` guard. -/
def OuterSimple.timerInv (w : OuterSimple.Watcher) : Prop :=
  (w.isRunning = false → w.timers = []) ∧ w.timers.length ≤ 1

/-! ## Theorems -/

/-- C2, counterexample.  On the fetched-value sequence `[10,10,15,15,20]`
for one key, `BalanceWatcher` emits three ChangeEvents, not two: its
`lastBalances` entry starts as `NaN`, so the first fetched value already
satisfies `oldBal !== newBal` and a `10→10` event is emitted for the first
fetched value.  `BalancePoller` likewise emits three, starting `0→10`. -/
theorem c2_counterexample :
    BalW.run none [10, 10, 15, 15, 20] = [(10, 10), (10, 15), (15, 20)]
    ∧ (BalW.run none [10, 10, 15, 15, 20]).length ≠ 2
    ∧ BalP.run 0 [10, 10, 15, 15, 20] = [(0, 10), (10, 15), (15, 20)] := by
  refine ⟨by decide, by decide, by decide⟩

/-- C2, amended.  On `[10,10,15,15,20]` exactly three ChangeEvents are
emitted: a first-observation event (`10→10` for BalanceWatcher, whose
`NaN` initialisation coerces `oldValue` to the new value; `0→10` for
BalancePoller, which initialises to `0`), then `10→15` and `15→20`.
After the first observation, a tick whose value equals the previous one
emits nothing. -/
theorem c2_theorem :
    BalW.run none [10, 10, 15, 15, 20] = [(10, 10), (10, 15), (15, 20)]
    ∧ BalP.run 0 [10, 10, 15, 15, 20] = [(0, 10), (10, 15), (15, 20)]
    ∧ (∀ v : Int, BalW.step (some v) v = (some v, none))
    ∧ (∀ v : Int, BalP.step v v = (v, none)) := by
  refine ⟨by decide, by decide, fun v => ?_, fun v => ?_⟩
  · simp [BalW.step]
  · simp [BalP.step]

/-- C5, counterexample.  A `TransactionWatcher` configured with
`pollIntervalMs = 500` (below the 1000 ms floor) is constructed without
any error: the constructor clamps with `Math.max(250, ·)`, keeps 500, and
the watcher starts polling at 500 ms. -/
theorem c5_counterexample :
    TxW.ctor "http://api" (some 500) none none none none =
      .ok ⟨500, 7000, 2, 300, 5000⟩
    ∧ ¬ ((500 : Int) ≥ 1000) := by
  refine ⟨rfl, by decide⟩

/-- C5, amended.  For a poll interval below the 1000 ms floor,
the constructor of `BalanceWatcher` does fail fast and synchronously with a
RangeError, but the constructor of `TransactionWatcher` never validates the
floor: it silently clamps the interval to at least 250 ms and begins
polling with an interval that is still below 1000 ms. -/
theorem c5_theorem (p : Int) (hp : p < 1000) :
    BalW.ctor "http://rpc" (some p) none =
      .error "pollIntervalMs must be at least 1000ms"
    ∧ TxW.ctor "http://api" (some p) none none none none =
        .ok ⟨max 250 p, 7000, 2, 300, 5000⟩
    ∧ max 250 p < 1000 := by
  have he : ("http://rpc" : String) ≠ "" := by decide
  have ha : ("http://api" : String) ≠ "" := by decide
  refine ⟨?_, ?_, ?_⟩
  · simp [BalW.ctor, he, hp]
  · simp [TxW.ctor, ha]
  · exact max_lt (by norm_num) hp

/-- C5, witness at `p = 500`. -/
theorem c5_witness :
    BalW.ctor "http://rpc" (some 500) none =
      .error "pollIntervalMs must be at least 1000ms"
    ∧ TxW.ctor "http://api" (some 500) none none none none =
        .ok ⟨max 250 500, 7000, 2, 300, 5000⟩
    ∧ max (250 : Int) 500 < 1000 :=
  c5_theorem 500 (by decide)

/-- C6, counterexample.  With `backoffMs = 1000`, `maxBackoffMs = 500`,
attempt 1, jitter enabled and jitter value 199,
`WebhookSendout.computeDelay` returns `699`: the cap is applied to the
quadratic term before the jitter is added, so the result both differs
from `clamp(base*k² + jitter, 0, cap) = 500` and exceeds the configured
cap. -/
theorem c6_counterexample :
    Ws.computeDelay 1000 500 1 none true 199 = 699
    ∧ Ws.computeDelay 1000 500 1 none true 199 ≠ min (1000 * 1 * 1 + 199) 500
    ∧ 500 < Ws.computeDelay 1000 500 1 none true 199 := by
  refine ⟨by decide, by decide, by decide⟩

/-- C6, amended.  With no Retry-After, `WebhookSendout.computeDelay`
returns `min(base*k², cap) + jitter` with `jitter ∈ [0,199]` when jitter
is enabled and the deterministic `min(base*k², cap) ≤ cap` when it is
disabled — the cap bounds only the quadratic term, so with jitter enabled
the delay may exceed the cap by up to 199 ms.  The per-watcher
`computeDelay` applies no cap at all: the delay is `base*k² + jitter`. -/
theorem c6_theorem (b cap k j : Nat) (hj : j ≤ 199) :
    Ws.computeDelay b cap k none false j = min (b * k * k) cap
    ∧ Ws.computeDelay b cap k none false j ≤ cap
    ∧ Ws.computeDelay b cap k none true j ≤ cap + 199
    ∧ Retry.computeDelay b k none j = b * k * k + j := by
  refine ⟨rfl, ?_, ?_, rfl⟩
  · exact min_le_right _ _
  · exact Nat.add_le_add (min_le_right _ _) hj

/-- C6, witness at `b = 1000, cap = 500, k = 1, j = 199`. -/
theorem c6_witness :
    Ws.computeDelay 1000 500 1 none false 199 = min (1000 * 1 * 1) 500
    ∧ Ws.computeDelay 1000 500 1 none false 199 ≤ 500
    ∧ Ws.computeDelay 1000 500 1 none true 199 ≤ 500 + 199
    ∧ Retry.computeDelay 1000 1 none 199 = 1000 * 1 * 1 + 199 :=
  c6_theorem 1000 500 1 199 (by decide)

theorem fresh_mem (x : Nat) (l : List Nat) : ∀ seen : List Nat,
    x ∈ TxW.fresh l seen ↔ x ∈ l ∧ x ∉ seen := by
  induction l with
  | nil => intro seen; simp [TxW.fresh]
  | cons y ys ih =>
    intro seen
    by_cases hy : y ∈ seen
    · have hc : seen.contains y = true := by simpa using hy
      simp only [TxW.fresh]
      rw [if_pos hc, ih]
      constructor
      · rintro ⟨h1, h2⟩
        exact ⟨List.mem_cons_of_mem _ h1, h2⟩
      · rintro ⟨h1, h2⟩
        rcases List.mem_cons.mp h1 with rfl | h1
        · exact absurd hy h2
        · exact ⟨h1, h2⟩
    · have hc : ¬ (seen.contains y = true) := by simpa using hy
      simp only [TxW.fresh]
      rw [if_neg hc]
      constructor
      · intro hmem
        rcases List.mem_cons.mp hmem with rfl | hmem
        · exact ⟨List.mem_cons_self _ _, hy⟩
        · have h2 := (ih (seen ++ [y])).mp hmem
          refine ⟨List.mem_cons_of_mem _ h2.1, fun hx => h2.2 ?_⟩
          exact List.mem_append_left _ hx
      · rintro ⟨h1, h2⟩
        rcases List.mem_cons.mp h1 with rfl | h1
        · exact List.mem_cons_self _ _
        · by_cases hxy : x = y
          · exact hxy ▸ List.mem_cons_self _ _
          · refine List.mem_cons_of_mem _ ((ih (seen ++ [y])).mpr ⟨h1, fun hx => ?_⟩)
            rcases List.mem_append.mp hx with hx | hx
            · exact h2 hx
            · exact hxy (by simpa using hx)

theorem fresh_nodup (l : List Nat) : ∀ seen : List Nat, (TxW.fresh l seen).Nodup := by
  induction l with
  | nil => intro seen; simp [TxW.fresh]
  | cons y ys ih =>
    intro seen
    by_cases hy : y ∈ seen
    · have hc : seen.contains y = true := by simpa using hy
      simp only [TxW.fresh]
      rw [if_pos hc]
      exact ih seen
    · have hc : ¬ (seen.contains y = true) := by simpa using hy
      simp only [TxW.fresh]
      rw [if_neg hc]
      refine List.nodup_cons.mpr ⟨fun hmem => ?_, ih _⟩
      have h2 := (fresh_mem y ys _).mp hmem
      exact h2.2 (by simp)

theorem fresh_append (a : List Nat) : ∀ b seen : List Nat,
    TxW.fresh (a ++ b) seen
      = TxW.fresh a seen ++ TxW.fresh b (seen ++ TxW.fresh a seen) := by
  induction a with
  | nil => intro b seen; simp [TxW.fresh]
  | cons y ys ih =>
    intro b seen
    by_cases hy : seen.contains y = true
    · simp only [List.cons_append, TxW.fresh, List.append_eq]
      rw [if_pos hy, if_pos hy, ih]
    · simp only [List.cons_append, TxW.fresh, List.append_eq]
      rw [if_neg hy, if_neg hy, ih]
      simp [List.append_assoc]

theorem fresh_length_nil (l : List Nat) :
    (TxW.fresh l []).length = l.toFinset.card := by
  have hnd := fresh_nodup l []
  have hfs : (TxW.fresh l []).toFinset = l.toFinset := by
    ext x
    have := fresh_mem x l []
    simp only [List.mem_toFinset]
    rw [this]
    simp
  rw [← List.toFinset_card_of_nodup hnd, hfs]

theorem processAddr_spec (maxSeen : Nat) (addr : String)
    (items : List TxW.TxItem) : ∀ st : TxW.AddrState, st.set = st.order →
    st.order.length + (TxW.fresh (items.map TxW.TxItem.hash) st.order).length
      ≤ maxSeen →
    ((TxW.processAddr maxSeen addr st items).1.set
        = (TxW.processAddr maxSeen addr st items).1.order
      ∧ (TxW.processAddr maxSeen addr st items).1.order
          = st.order ++ TxW.fresh (items.map TxW.TxItem.hash) st.order
      ∧ (TxW.processAddr maxSeen addr st items).2.map TxW.TxEvent.txHash
          = TxW.fresh (items.map TxW.TxItem.hash) st.order) := by
  induction items with
  | nil =>
    intro st hss hlen
    refine ⟨hss, ?_, ?_⟩ <;> simp [TxW.processAddr, TxW.fresh]
  | cons tx rest ih =>
    intro st hss hlen
    by_cases hc : st.set.contains tx.hash = true
    · have hcord : st.order.contains tx.hash = true := by rw [← hss]; exact hc
      have hpa : TxW.processAddr maxSeen addr st (tx :: rest)
          = TxW.processAddr maxSeen addr st rest := by
        simp only [TxW.processAddr]
        rw [if_pos hc]
      have hfr : TxW.fresh ((tx :: rest).map TxW.TxItem.hash) st.order
          = TxW.fresh (rest.map TxW.TxItem.hash) st.order := by
        simp only [List.map_cons, TxW.fresh]
        rw [if_pos hcord]
      rw [hpa, hfr]
      rw [hfr] at hlen
      exact ih st hss hlen
    · have hcb : st.set.contains tx.hash = false := by
        cases hcc : st.set.contains tx.hash
        · rfl
        · exact absurd hcc hc
      have hcord : ¬ (st.order.contains tx.hash = true) := by rw [← hss]; exact hc
      have hfr : TxW.fresh ((tx :: rest).map TxW.TxItem.hash) st.order
          = tx.hash :: TxW.fresh (rest.map TxW.TxItem.hash)
              (st.order ++ [tx.hash]) := by
        simp only [List.map_cons, TxW.fresh]
        rw [if_neg hcord]
      have hlen1 : st.order.length + 1 ≤ maxSeen := by
        rw [hfr] at hlen
        simp only [List.length_cons] at hlen
        omega
      have hms : TxW.markSeen maxSeen st tx.hash
          = { st with set := st.set ++ [tx.hash],
                      order := st.order ++ [tx.hash] } := by
        simp only [TxW.markSeen, TxW.setAdd]
        rw [if_neg hc, if_neg ?hnl]
        case hnl =>
          simp only [List.length_append, List.length_cons, List.length_nil]
          omega
      have hpa : TxW.processAddr maxSeen addr st (tx :: rest)
          = ((TxW.processAddr maxSeen addr
                { set := st.set ++ [tx.hash], order := st.order ++ [tx.hash],
                  lastBlock :=
                    match st.lastBlock with
                    | none => some tx.block
                    | some b => some (max b tx.block) } rest).1,
             ⟨addr, tx.hash, tx.block, TxW.toMillis tx.time⟩ ::
               (TxW.processAddr maxSeen addr
                { set := st.set ++ [tx.hash], order := st.order ++ [tx.hash],
                  lastBlock :=
                    match st.lastBlock with
                    | none => some tx.block
                    | some b => some (max b tx.block) } rest).2) := by
        simp only [TxW.processAddr]
        rw [if_neg hc, hms]
      have hss2 : (st.set ++ [tx.hash]) = (st.order ++ [tx.hash]) := by rw [hss]
      have hlen2 : (st.order ++ [tx.hash]).length
          + (TxW.fresh (rest.map TxW.TxItem.hash)
              (st.order ++ [tx.hash])).length ≤ maxSeen := by
        rw [hfr] at hlen
        simp only [List.length_cons, List.length_append, List.length_nil] at hlen ⊢
        omega
      obtain ⟨h1, h2, h3⟩ := ih
        { set := st.set ++ [tx.hash], order := st.order ++ [tx.hash],
          lastBlock :=
            match st.lastBlock with
            | none => some tx.block
            | some b => some (max b tx.block) } hss2 hlen2
      rw [hpa, hfr]
      refine ⟨h1, ?_, ?_⟩
      · simp only at h2
        rw [h2]
        simp [List.append_assoc]
      · simp only [List.map_cons]
        simp only at h3
        rw [h3]

theorem runAddr_spec (maxSeen : Nat) (addr : String)
    (ticks : List (List TxW.TxItem)) : ∀ st : TxW.AddrState,
    st.set = st.order →
    st.order.length + (TxW.fresh (TxW.runIds ticks) st.order).length ≤ maxSeen →
    ((TxW.runAddr maxSeen addr st ticks).1.set
        = (TxW.runAddr maxSeen addr st ticks).1.order
      ∧ (TxW.runAddr maxSeen addr st ticks).1.order
          = st.order ++ TxW.fresh (TxW.runIds ticks) st.order
      ∧ (TxW.runAddr maxSeen addr st ticks).2.map TxW.TxEvent.txHash
          = TxW.fresh (TxW.runIds ticks) st.order) := by
  induction ticks with
  | nil =>
    intro st hss hlen
    refine ⟨hss, ?_, ?_⟩ <;> simp [TxW.runAddr, TxW.runIds, TxW.fresh]
  | cons batch more ih =>
    intro st hss hlen
    have hrun : TxW.runIds (batch :: more)
        = batch.map TxW.TxItem.hash ++ TxW.runIds more := by
      simp [TxW.runIds]
    rw [hrun] at hlen
    rw [fresh_append] at hlen
    have hlenA : st.order.length
        + (TxW.fresh (batch.map TxW.TxItem.hash) st.order).length ≤ maxSeen := by
      simp only [List.length_append] at hlen
      omega
    obtain ⟨p1, p2, p3⟩ := processAddr_spec maxSeen addr batch st hss hlenA
    have hlenB : (TxW.processAddr maxSeen addr st batch).1.order.length
        + (TxW.fresh (TxW.runIds more)
            (TxW.processAddr maxSeen addr st batch).1.order).length ≤ maxSeen := by
      rw [p2]
      simp only [List.length_append] at hlen ⊢
      omega
    obtain ⟨q1, q2, q3⟩ := ih (TxW.processAddr maxSeen addr st batch).1 p1 hlenB
    have hra : TxW.runAddr maxSeen addr st (batch :: more)
        = ((TxW.runAddr maxSeen addr (TxW.processAddr maxSeen addr st batch).1 more).1,
           (TxW.processAddr maxSeen addr st batch).2
             ++ (TxW.runAddr maxSeen addr (TxW.processAddr maxSeen addr st batch).1 more).2) := by
      simp only [TxW.runAddr]
    rw [hra, hrun]
    rw [fresh_append]
    refine ⟨q1, ?_, ?_⟩
    · rw [q2, p2]
      simp [List.append_assoc]
    · rw [List.map_append, q3, p3, p2]

set_option maxRecDepth 40000 in
/-- C1, counterexample.  With the minimum seen-set capacity the
constructor allows (`maxSeenPerAddress = 100`), a first tick returning
101 distinct item ids evicts id `0` from the bounded seen set (FIFO), so
a second tick returning id `0` again emits a second DiscoveryEvent for
it: id `0` yields two DiscoveryEvents, not exactly one. -/
theorem c1_counterexample :
    ((TxW.runAddr 100 "a" TxW.emptyState
        [(List.range 101).map (fun i => (⟨i, 0, 0⟩ : TxW.TxItem)),
         [⟨0, 0, 0⟩]]).2.map TxW.TxEvent.txHash).count 0 = 2
    ∧ (2 : Nat) ≠ 1 := by
  refine ⟨by decide, by decide⟩

/-- C1, amended.  The identity-dedup watcher delivers each unique item id
exactly once as long as nothing is evicted from the bounded seen set: if
the number of distinct ids across the whole run is at most
`maxSeenPerAddress`, then (starting from a fresh key state) the emitted
DiscoveryEvents carry pairwise distinct ids, and an id is emitted iff it
occurs in some fetch result — items whose id is already in the per-key
seen set are skipped, previously-unseen ids are emitted once and added to
the set. -/
theorem c1_theorem (maxSeen : Nat) (addr : String)
    (ticks : List (List TxW.TxItem))
    (hcard : (TxW.runIds ticks).toFinset.card ≤ maxSeen) :
    ((TxW.runAddr maxSeen addr TxW.emptyState ticks).2.map
        TxW.TxEvent.txHash).Nodup
    ∧ ∀ h : Nat,
        h ∈ (TxW.runAddr maxSeen addr TxW.emptyState ticks).2.map
              TxW.TxEvent.txHash
          ↔ h ∈ TxW.runIds ticks := by
  have hlen : (TxW.emptyState.order).length
      + (TxW.fresh (TxW.runIds ticks) TxW.emptyState.order).length ≤ maxSeen := by
    show 0 + (TxW.fresh (TxW.runIds ticks) []).length ≤ maxSeen
    rw [fresh_length_nil]
    omega
  obtain ⟨h1, h2, h3⟩ := runAddr_spec maxSeen addr ticks TxW.emptyState rfl hlen
  rw [h3]
  constructor
  · exact fresh_nodup _ _
  · intro h
    rw [fresh_mem]
    show h ∈ TxW.runIds ticks ∧ h ∉ ([] : List Nat) ↔ h ∈ TxW.runIds ticks
    simp

/-- C1, witness: a run with repeated ids `1` across and within ticks,
under the capacity bound. -/
theorem c1_witness :
    ((TxW.runAddr 100 "a" TxW.emptyState
        [[⟨1, 2, 3⟩, ⟨1, 2, 4⟩], [⟨2, 0, 0⟩, ⟨1, 9, 9⟩]]).2.map
          TxW.TxEvent.txHash).Nodup
    ∧ (1 ∈ (TxW.runAddr 100 "a" TxW.emptyState
          [[⟨1, 2, 3⟩, ⟨1, 2, 4⟩], [⟨2, 0, 0⟩, ⟨1, 9, 9⟩]]).2.map
            TxW.TxEvent.txHash
        ↔ 1 ∈ TxW.runIds [[⟨1, 2, 3⟩, ⟨1, 2, 4⟩], [⟨2, 0, 0⟩, ⟨1, 9, 9⟩]]) :=
  ⟨(c1_theorem 100 "a" _ (by decide)).1, (c1_theorem 100 "a" _ (by decide)).2 1⟩

theorem markSeen_inv (maxSeen : Nat) (st : TxW.AddrState) (h : Nat)
    (hss : st.set = st.order) (hlen : st.order.length ≤ maxSeen)
    (hc : st.set.contains h = false) :
    (TxW.markSeen maxSeen st h).set = (TxW.markSeen maxSeen st h).order
    ∧ (TxW.markSeen maxSeen st h).order.length ≤ maxSeen := by
  obtain ⟨sset, sorder, slb⟩ := st
  dsimp only at hss hlen hc ⊢
  subst hss
  have hnc : ¬ (sset.contains h = true) := by
    intro hcc
    rw [hc] at hcc
    exact Bool.false_ne_true hcc
  simp only [TxW.markSeen, TxW.setAdd]
  rw [if_neg hnc]
  by_cases hev : maxSeen < (sset ++ [h]).length
  · rw [if_pos hev]
    cases sset with
    | nil => simp
    | cons d t =>
      simp only [List.cons_append]
      refine ⟨by rw [List.erase_cons_head], ?_⟩
      simp only [List.length_append, List.length_cons, List.length_nil] at hlen ⊢
      omega
  · rw [if_neg hev]
    refine ⟨rfl, ?_⟩
    simp only [List.length_append, List.length_cons, List.length_nil] at hev ⊢
    omega

theorem processAddr_inv (maxSeen : Nat) (addr : String)
    (items : List TxW.TxItem) : ∀ st : TxW.AddrState,
    st.set = st.order → st.order.length ≤ maxSeen →
    ((TxW.processAddr maxSeen addr st items).1.set
        = (TxW.processAddr maxSeen addr st items).1.order
      ∧ (TxW.processAddr maxSeen addr st items).1.order.length ≤ maxSeen) := by
  induction items with
  | nil => intro st hss hlen; exact ⟨hss, hlen⟩
  | cons tx rest ih =>
    intro st hss hlen
    by_cases hc : st.set.contains tx.hash = true
    · have hpa : TxW.processAddr maxSeen addr st (tx :: rest)
          = TxW.processAddr maxSeen addr st rest := by
        simp only [TxW.processAddr]
        rw [if_pos hc]
      rw [hpa]
      exact ih st hss hlen
    · have hcb : st.set.contains tx.hash = false := by
        cases hcc : st.set.contains tx.hash
        · rfl
        · exact absurd hcc hc
      obtain ⟨m1, m2⟩ := markSeen_inv maxSeen st tx.hash hss hlen hcb
      have hpa : TxW.processAddr maxSeen addr st (tx :: rest)
          = ((TxW.processAddr maxSeen addr
                { TxW.markSeen maxSeen st tx.hash with
                  lastBlock :=
                    match (TxW.markSeen maxSeen st tx.hash).lastBlock with
                    | none => some tx.block
                    | some b => some (max b tx.block) } rest).1,
             ⟨addr, tx.hash, tx.block, TxW.toMillis tx.time⟩ ::
               (TxW.processAddr maxSeen addr
                { TxW.markSeen maxSeen st tx.hash with
                  lastBlock :=
                    match (TxW.markSeen maxSeen st tx.hash).lastBlock with
                    | none => some tx.block
                    | some b => some (max b tx.block) } rest).2) := by
        simp only [TxW.processAddr]
        rw [if_neg hc]
      rw [hpa]
      exact ih _ m1 m2

theorem runAddr_inv (maxSeen : Nat) (addr : String)
    (ticks : List (List TxW.TxItem)) : ∀ st : TxW.AddrState,
    st.set = st.order → st.order.length ≤ maxSeen →
    ((TxW.runAddr maxSeen addr st ticks).1.set
        = (TxW.runAddr maxSeen addr st ticks).1.order
      ∧ (TxW.runAddr maxSeen addr st ticks).1.order.length ≤ maxSeen) := by
  induction ticks with
  | nil => intro st hss hlen; exact ⟨hss, hlen⟩
  | cons batch more ih =>
    intro st hss hlen
    obtain ⟨p1, p2⟩ := processAddr_inv maxSeen addr batch st hss hlen
    have hra : (TxW.runAddr maxSeen addr st (batch :: more)).1
        = (TxW.runAddr maxSeen addr
            (TxW.processAddr maxSeen addr st batch).1 more).1 := by
      simp only [TxW.runAddr]
    rw [hra]
    exact ih _ p1 p2

/-- C8.  Starting from any per-key state whose seen set mirrors its FIFO
order list and respects the bound, after any sequence of ticks the seen
set still has at most `maxSeenPerAddress` entries; and when inserting a
fresh id into a state already at the bound, `markSeen` evicts exactly the
oldest remembered id (the FIFO head): the resulting order and set are
`st.order.tail ++ [h]`. -/
theorem c8_theorem (maxSeen : Nat) (addr : String) (st : TxW.AddrState)
    (ticks : List (List TxW.TxItem)) (h : Nat)
    (hss : st.set = st.order) (hlen : st.order.length ≤ maxSeen) :
    ((TxW.runAddr maxSeen addr st ticks).1.set
        = (TxW.runAddr maxSeen addr st ticks).1.order
      ∧ (TxW.runAddr maxSeen addr st ticks).1.order.length ≤ maxSeen)
    ∧ (1 ≤ maxSeen → st.order.length = maxSeen →
        st.set.contains h = false →
        (TxW.markSeen maxSeen st h).order = st.order.tail ++ [h]
        ∧ (TxW.markSeen maxSeen st h).set = st.order.tail ++ [h]) := by
  refine ⟨runAddr_inv maxSeen addr ticks st hss hlen, ?_⟩
  intro hpos hfull hc
  obtain ⟨sset, sorder, slb⟩ := st
  dsimp only at hss hfull hc ⊢
  subst hss
  have hnc : ¬ (sset.contains h = true) := by
    intro hcc
    rw [hc] at hcc
    exact Bool.false_ne_true hcc
  simp only [TxW.markSeen, TxW.setAdd]
  rw [if_neg hnc]
  have hev : maxSeen < (sset ++ [h]).length := by
    simp only [List.length_append, List.length_cons, List.length_nil]
    omega
  rw [if_pos hev]
  cases sset with
  | nil =>
    simp only [List.length_nil] at hfull
    omega
  | cons d t =>
    simp only [List.cons_append]
    refine ⟨?_, ?_⟩ <;> simp [List.erase_cons_head]

/-- C8, witness: capacity 2, a full state `[5,7]`, one tick discovering
`9` (evicting `5`), and a fresh insertion `3` evicting the FIFO head. -/
theorem c8_witness :
    ((TxW.runAddr 2 "a" ⟨[5, 7], [5, 7], none⟩ [[⟨7, 1, 1⟩, ⟨9, 2, 2⟩]]).1.order.length ≤ 2)
    ∧ (TxW.markSeen 2 ⟨[5, 7], [5, 7], none⟩ 3).order = [7, 3] :=
  ⟨(c8_theorem 2 "a" ⟨[5, 7], [5, 7], none⟩ [[⟨7, 1, 1⟩, ⟨9, 2, 2⟩]] 3 rfl
      (by decide)).1.2,
   ((c8_theorem 2 "a" ⟨[5, 7], [5, 7], none⟩ [[⟨7, 1, 1⟩, ⟨9, 2, 2⟩]] 3 rfl
      (by decide)).2 (by decide) (by decide) (by decide)).1⟩

theorem mem_insertByTs (y e : OuterW.OuterEvent)
    (l : List OuterW.OuterEvent) :
    y ∈ OuterW.insertByTs e l ↔ y = e ∨ y ∈ l := by
  induction l with
  | nil => simp [OuterW.insertByTs]
  | cons x xs ih =>
    simp only [OuterW.insertByTs]
    by_cases hx : x.timestamp ≤ e.timestamp
    · rw [if_pos hx]
      simp only [List.mem_cons, ih]
      try tauto
    · rw [if_neg hx]
      simp only [List.mem_cons]
      try tauto

theorem pairwise_insertByTs (e : OuterW.OuterEvent)
    (l : List OuterW.OuterEvent)
    (hl : l.Pairwise (fun a b => a.timestamp ≤ b.timestamp)) :
    (OuterW.insertByTs e l).Pairwise
      (fun a b => a.timestamp ≤ b.timestamp) := by
  induction l with
  | nil => simp [OuterW.insertByTs]
  | cons x xs ih =>
    rcases List.pairwise_cons.mp hl with ⟨hx, hxs⟩
    simp only [OuterW.insertByTs]
    by_cases hc : x.timestamp ≤ e.timestamp
    · rw [if_pos hc]
      refine List.pairwise_cons.mpr ⟨?_, ih hxs⟩
      intro y hy
      rcases (mem_insertByTs y e xs).mp hy with rfl | hy
      · exact hc
      · exact hx y hy
    · rw [if_neg hc]
      refine List.pairwise_cons.mpr ⟨?_, hl⟩
      intro y hy
      rcases List.mem_cons.mp hy with rfl | hy
      · exact le_of_lt (lt_of_not_le hc)
      · exact le_trans (le_of_lt (lt_of_not_le hc)) (hx y hy)

theorem pairwise_sortByTs (l : List OuterW.OuterEvent) :
    (OuterW.sortByTs l).Pairwise (fun a b => a.timestamp ≤ b.timestamp) := by
  induction l with
  | nil => simp [OuterW.sortByTs]
  | cons x xs ih => exact pairwise_insertByTs x (OuterW.sortByTs xs) ih

theorem processEvents_sublist (maxIds : Nat) (l : List OuterW.OuterEvent) :
    ∀ st : OuterW.WState,
      List.Sublist (OuterW.processEvents maxIds st l).2 l := by
  induction l with
  | nil => intro st; simp [OuterW.processEvents]
  | cons evt rest ih =>
    intro st
    by_cases hc : st.seen.contains evt.id = true
    · have hp : (OuterW.processEvents maxIds st (evt :: rest)).2
          = (OuterW.processEvents maxIds st rest).2 := by
        simp only [OuterW.processEvents]
        rw [if_pos hc]
      rw [hp]
      exact List.Sublist.cons _ (ih st)
    · have hp : (OuterW.processEvents maxIds st (evt :: rest)).2
          = evt :: (OuterW.processEvents maxIds
              { OuterW.markSeen maxIds st evt.id with
                lastTimestamp :=
                  match (OuterW.markSeen maxIds st evt.id).lastTimestamp with
                  | none => some evt.timestamp
                  | some t =>
                    if t < evt.timestamp then some evt.timestamp
                    else some t } rest).2 := by
        simp only [OuterW.processEvents]
        rw [if_neg hc]
      rw [hp]
      exact List.Sublist.cons₂ _ (ih _)

/-- C7, amended.  The full `OuterEventWatcher.tick` does emit each batch
in ascending timestamp order regardless of provider order (it sorts the
batch before the dedup loop); `TransactionWatcher.tick`, however, emits
in provider order (see the counterexample), so the ordering
guarantee holds only for the outer-event watcher.  This theorem is the
outer-event half: for every state and fetched batch, the emitted events
of one tick are pairwise nondecreasing in timestamp. -/
theorem c7_theorem (maxIds : Nat) (st : OuterW.WState)
    (events : List OuterW.OuterEvent) :
    ((OuterW.tickBody maxIds st events).2).Pairwise
      (fun a b => a.timestamp ≤ b.timestamp) :=
  (pairwise_sortByTs events).sublist
    (processEvents_sublist maxIds (OuterW.sortByTs events) st)

/-- C7, counterexample.  `TransactionWatcher.tick` performs no sort: a
provider batch with timestamps `[5, 3]` (seconds, converted to `[5000,
3000]` ms) is emitted in exactly that descending order, so the
DiscoveryEvents of this batch are not in ascending timestamp order. -/
theorem c7_counterexample :
    (TxW.processAddr 100 "a" TxW.emptyState
        [⟨1, 10, 5⟩, ⟨2, 9, 3⟩]).2.map TxW.TxEvent.timestamp = [5000, 3000]
    ∧ ¬ ((TxW.processAddr 100 "a" TxW.emptyState
        [⟨1, 10, 5⟩, ⟨2, 9, 3⟩]).2.map TxW.TxEvent.timestamp).Pairwise
          (fun a b => a ≤ b) := by
  refine ⟨by decide, by decide⟩

theorem runAttempts_timeout (rs : Nat → Bool) (retries k : Nat)
    (trace : Nat → Retry.AttemptOutcome)
    (ht : trace k = .timeout) (hk2 : k ≤ retries + 1) :
    ∀ (fuel attempt : Nat), attempt + fuel = retries + 2 → 1 ≤ attempt →
    attempt ≤ k →
    (∀ j, attempt ≤ j → j < k → Retry.continues (trace j)) →
    Retry.runAttempts rs retries trace attempt fuel
      = (.error .timeout, k) := by
  intro fuel
  induction fuel with
  | zero => intro attempt hsum h1 hak hpre; omega
  | succ n ih =>
    intro attempt hsum h1 hak hpre
    by_cases heq : attempt = k
    · subst heq
      simp only [Retry.runAttempts, ht]
    · have hlt : attempt < k := lt_of_le_of_ne hak heq
      have hle : attempt ≤ retries := by omega
      have hd : decide (attempt ≤ retries) = true := decide_eq_true hle
      have hrec := ih (attempt + 1) (by omega) (by omega) (by omega)
        (fun j hj1 hj2 => hpre j (by omega) hj2)
      rcases hpre attempt le_rfl hlt with ⟨s, ra, hS⟩ | hN
      · simp only [Retry.runAttempts, hS]
        cases hrs : rs s with
        | true =>
          rw [if_pos (show (decide (attempt ≤ retries) && true) = true by
            rw [hd]
            rfl)]
          exact hrec
        | false =>
          rw [if_neg (show ¬ ((decide (attempt ≤ retries) && false) = true) by
            rw [hd]
            exact Bool.false_ne_true)]
          rw [if_pos hle]
          exact hrec
      · simp only [Retry.runAttempts, hN]
        rw [if_pos hle]
        exact hrec

/-- C4, counterexample.  With `retries = 2` (an attempt budget of 3), a
fetch whose first attempt times out propagates the timeout error to the
caller immediately: exactly one attempt is performed even though two
more remain in the budget, because the retry loops test
`attempt <= retries && !isAbort` and an aborted (timed-out) attempt is
never retried. -/
theorem c4_counterexample :
    Retry.fetchWithRetry 2 (fun _ => .timeout) = (.error .timeout, 1)
    ∧ Retry.getWithRetry 2 (fun _ => .timeout) = (.error .timeout, 1)
    ∧ (1 : Nat) < 2 + 1 := by
  refine ⟨rfl, rfl, by decide⟩

/-- C4, amended.  A per-attempt timeout is a terminal failure, not a
retryable one: in both `TransactionWatcher.fetchWithRetry` and
`OuterEventWatcher.getWithRetry`, whenever the attempts before `k` are
retried failures (non-ok HTTP responses or non-abort network errors) and
attempt `k` times out, the loop stops at attempt `k` and propagates the
timeout error — no further attempt is made even when budget remains. -/
theorem c4_theorem (retries k : Nat) (trace : Nat → Retry.AttemptOutcome)
    (h1 : 1 ≤ k) (h2 : k ≤ retries + 1) (ht : trace k = .timeout)
    (hpre : ∀ j, 1 ≤ j → j < k → Retry.continues (trace j)) :
    Retry.fetchWithRetry retries trace = (.error .timeout, k)
    ∧ Retry.getWithRetry retries trace = (.error .timeout, k) :=
  ⟨runAttempts_timeout Retry.txRetryStatus retries k trace ht h2
      (retries + 1) 1 (by omega) le_rfl h1 (fun j hj1 hj2 => hpre j hj1 hj2),
   runAttempts_timeout Retry.outerRetryStatus retries k trace ht h2
      (retries + 1) 1 (by omega) le_rfl h1 (fun j hj1 hj2 => hpre j hj1 hj2)⟩

/-- C4, witness: attempt 1 fails with a network error and is retried,
attempt 2 times out and the loop stops there with the timeout error. -/
theorem c4_witness :
    Retry.fetchWithRetry 2
        (fun j => if j = 1 then .netErr else if j = 2 then .timeout else .ok 0)
      = (.error .timeout, 2)
    ∧ Retry.getWithRetry 2
        (fun j => if j = 1 then .netErr else if j = 2 then .timeout else .ok 0)
      = (.error .timeout, 2) :=
  c4_theorem 2 2
    (fun j => if j = 1 then .netErr else if j = 2 then .timeout else .ok 0)
    (by decide) (by decide) (by decide)
    (fun j hj1 hj2 => by
      have hj : j = 1 := by omega
      subst hj
      exact Or.inr rfl)

/-- C3.  `TransactionWatcher.tick` and the full `OuterEventWatcher.tick`
guard against overlap: invoked while a tick is already in flight
(`ticking = true`), they return immediately — the watcher state is
unchanged, no events are emitted, no fetch is issued and nothing is
queued for later.  (`BalanceWatcher` has no such guard; see the
counterexample.) -/
theorem c3_theorem (maxSeen maxIds : Nat) (w : TxW.Watcher)
    (results : String → List TxW.RawTx) (e : OuterW.Engine)
    (events : List OuterW.OuterEvent)
    (hw : w.ticking = true) (he : e.ticking = true) :
    TxW.tick maxSeen w results = (w, [], 0)
    ∧ OuterW.tick maxIds e events = (e, [], 0) := by
  constructor
  · simp only [TxW.tick]
    rw [if_pos hw]
  · simp only [OuterW.tick]
    rw [if_pos (show ((!e.isRunning) || e.ticking) = true by
      rw [he, Bool.or_true])]

/-- C3, witness: concrete in-flight watchers. -/
theorem c3_witness :
    TxW.tick 100 ⟨15000, ["a"], [], none, [], true⟩ (fun _ => [])
      = (⟨15000, ["a"], [], none, [], true⟩, [], 0)
    ∧ OuterW.tick 100 ⟨true, true, OuterW.emptyState⟩ []
      = (⟨true, true, OuterW.emptyState⟩, [], 0) :=
  c3_theorem 100 100 ⟨15000, ["a"], [], none, [], true⟩ (fun _ => [])
    ⟨true, true, OuterW.emptyState⟩ [] rfl rfl

/-- C3, counterexample.  The interval callback of `BalanceWatcher.start` has no
overlap guard: with concurrency 1 and one tracked address, a timer fire
occurring while the fetch task of the previous fire is still running (limiter
state `active = 1`) still submits one fetch task — which, no slot being
free, is queued by the limiter.  The fire thus performs work and the
work is queued, refuting the claim for this watcher. -/
theorem c3_counterexample :
    BalW.fire 1 ["a"] ⟨1, 0⟩ = (⟨1, 1⟩, 1)
    ∧ (1 : Nat) ≠ 0 := by
  refine ⟨by decide, by decide⟩

theorem lookup_filter_ne (k : String) :
    ∀ m : List (String × TxW.AddrState),
      (m.filter (fun p => !(p.1 == k))).lookup k = none := by
  intro m
  induction m with
  | nil => rfl
  | cons p rest ih =>
    obtain ⟨pk, pv⟩ := p
    by_cases hk : (pk == k) = true
    · have hfil : ((pk, pv) :: rest).filter (fun q => !(q.1 == k))
          = rest.filter (fun q => !(q.1 == k)) := by
        simp only [List.filter_cons]
        rw [hk]
        rfl
      rw [hfil, ih]
    · have hkb : (pk == k) = false := by
        cases hq : (pk == k)
        · rfl
        · exact absurd hq hk
      have hfil : ((pk, pv) :: rest).filter (fun q => !(q.1 == k))
          = (pk, pv) :: rest.filter (fun q => !(q.1 == k)) := by
        simp only [List.filter_cons]
        rw [hkb]
        rfl
      rw [hfil]
      have hne : pk ≠ k := by
        intro hEq
        rw [hEq] at hkb
        simp at hkb
      have hko : (k == pk) = false := beq_eq_false_iff_ne.mpr
        (fun hEq => hne hEq.symm)
      simp only [List.lookup]
      rw [hko, ih]

theorem lookup_append_right (k : String) (v : TxW.AddrState) :
    ∀ m : List (String × TxW.AddrState), m.lookup k = none →
      (m ++ [(k, v)]).lookup k = some v := by
  intro m
  induction m with
  | nil =>
    intro _
    simp [List.lookup]
  | cons p rest ih =>
    obtain ⟨pk, pv⟩ := p
    intro h
    by_cases hk : (k == pk) = true
    · exfalso
      simp only [List.lookup] at h
      rw [hk] at h
      exact Option.some_ne_none _ h
    · have hkb : (k == pk) = false := by
        cases hq : (k == pk)
        · rfl
        · exact absurd hq hk
      have h2 : rest.lookup k = none := by
        simp only [List.lookup] at h
        rw [hkb] at h
        exact h
      rw [List.cons_append]
      simp only [List.lookup]
      rw [hkb]
      exact ih h2

/-- C9.  Removing an address destroys the whole dedup memory of that key: after
removing and re-adding an address, its per-key state is the fresh empty
state again, so any item the fetch provider returns — including items
that were already delivered before the removal — is emitted again as a
new discovery.  Exactly-once delivery holds only within one
add/remove cycle of a key. -/
theorem c9_theorem (w : TxW.Watcher) (a : String) (maxSeen : Nat)
    (i : TxW.TxItem) (hnd : w.addresses.Nodup)
    (hkey : TxW.jsTrim a ≠ "") :
    (TxW.addAddress (TxW.removeAddress w a) a).seen.lookup (TxW.jsTrim a)
      = some TxW.emptyState
    ∧ (TxW.processAddr maxSeen (TxW.jsTrim a) TxW.emptyState [i]).2
      = [⟨TxW.jsTrim a, i.hash, i.block, TxW.toMillis i.time⟩] := by
  constructor
  · simp only [TxW.removeAddress, TxW.addAddress]
    rw [if_neg hkey]
    have hnm : TxW.jsTrim a ∉ w.addresses.erase (TxW.jsTrim a) :=
      hnd.not_mem_erase
    rw [if_neg (show ¬ ((w.addresses.erase (TxW.jsTrim a)).contains
        (TxW.jsTrim a) = true) by simpa using hnm)]
    have hlf := lookup_filter_ne (TxW.jsTrim a) w.seen
    rw [if_pos (show ((w.seen.filter
        (fun p => !(p.1 == TxW.jsTrim a))).lookup (TxW.jsTrim a)).isNone
          = true by rw [hlf]; rfl)]
    exact lookup_append_right (TxW.jsTrim a) TxW.emptyState _ hlf
  · rfl

/-- C9, witness: hash `9` was already delivered for `"addr1"`, the
address is removed and re-added, and `9` is delivered again. -/
theorem c9_witness :
    (TxW.addAddress (TxW.removeAddress
        ⟨15000, ["addr1"], [("addr1", ⟨[9], [9], none⟩)], none, [], false⟩
        "addr1") "addr1").seen.lookup (TxW.jsTrim "addr1")
      = some TxW.emptyState
    ∧ (TxW.processAddr 100 (TxW.jsTrim "addr1") TxW.emptyState
        [⟨9, 1, 2⟩]).2
      = [⟨TxW.jsTrim "addr1", 9, 1, TxW.toMillis 2⟩] :=
  c9_theorem ⟨15000, ["addr1"], [("addr1", ⟨[9], [9], none⟩)], none, [], false⟩
    "addr1" 100 ⟨9, 1, 2⟩ (by decide) (by decide)

theorem addAddress_sched (w : TxW.Watcher) (x : String) :
    (TxW.addAddress w x).intervalId = w.intervalId
    ∧ (TxW.addAddress w x).timers = w.timers := by
  simp only [TxW.addAddress]
  by_cases h1 : TxW.jsTrim x = ""
  · rw [if_pos h1]
    exact ⟨rfl, rfl⟩
  · rw [if_neg h1]
    by_cases h2 : (w.addresses.contains (TxW.jsTrim x)) = true
    · rw [if_pos h2]
      exact ⟨rfl, rfl⟩
    · rw [if_neg h2]
      exact ⟨rfl, rfl⟩

theorem foldl_addAddress_sched (addrs : List String) : ∀ w : TxW.Watcher,
    (addrs.foldl TxW.addAddress w).intervalId = w.intervalId
    ∧ (addrs.foldl TxW.addAddress w).timers = w.timers := by
  induction addrs with
  | nil => intro w; exact ⟨rfl, rfl⟩
  | cons x xs ih =>
    intro w
    have hx := addAddress_sched w x
    have hxs := ih (TxW.addAddress w x)
    simp only [List.foldl_cons]
    exact ⟨hxs.1.trans hx.1, hxs.2.trans hx.2⟩

/-- C10.  Calling `start()` on an already-running watcher is a scheduling
no-op in all three modelled variants: `TransactionWatcher.start` may
register addresses but leaves the armed timer and timer list unchanged;
the simple `OuterEventWatcher.start` and the part_013
`BalanceWatcher.start` return with the state untouched.  Moreover the
single-timer invariant (at most one armed repeating timer) is preserved
by `start` and `stop` from any state satisfying it. -/
theorem c10_theorem (w : TxW.Watcher) (addrs : List String)
    (o : OuterSimple.Watcher) (b : BwBig.Watcher)
    (hw : w.intervalId.isSome = true) (ho : o.isRunning = true)
    (hb : b.running = true) :
    ((TxW.start w addrs).intervalId = w.intervalId
      ∧ (TxW.start w addrs).timers = w.timers)
    ∧ OuterSimple.start o = o
    ∧ BwBig.start b = Except.ok b
    ∧ (∀ w2 : TxW.Watcher, TxW.timerInv w2 →
        TxW.timerInv (TxW.start w2 addrs) ∧ TxW.timerInv (TxW.stop w2))
    ∧ (∀ o2 : OuterSimple.Watcher, OuterSimple.timerInv o2 →
        OuterSimple.timerInv (OuterSimple.start o2)
        ∧ OuterSimple.timerInv (OuterSimple.stop o2)) := by
  obtain ⟨f1, f2⟩ := foldl_addAddress_sched addrs w
  refine ⟨?_, ?_, ?_, ?_, ?_⟩
  · simp only [TxW.start]
    rw [if_pos (show (addrs.foldl TxW.addAddress w).intervalId.isSome = true by
      rw [f1]; exact hw)]
    exact ⟨f1, f2⟩
  · simp only [OuterSimple.start]
    rw [if_pos ho]
  · simp only [BwBig.start]
    rw [if_pos hb]
  · intro w2 hinv
    obtain ⟨g1, g2⟩ := foldl_addAddress_sched addrs w2
    constructor
    · simp only [TxW.start]
      by_cases h2 : (addrs.foldl TxW.addAddress w2).intervalId.isSome = true
      · rw [if_pos h2]
        refine ⟨fun hn => ?_, ?_⟩
        · rw [g2]
          exact hinv.1 (by rw [← g1]; exact hn)
        · rw [g2]
          exact hinv.2
      · rw [if_neg h2]
        have hnone : w2.intervalId = none := by
          cases hio : w2.intervalId with
          | none => rfl
          | some v => exact absurd (by rw [g1, hio]; rfl) h2
        have htm : w2.timers = [] := hinv.1 hnone
        refine ⟨fun hn => ?_, ?_⟩
        · exact absurd hn (by simp)
        · show ((addrs.foldl TxW.addAddress w2).timers ++ _).length ≤ 1
          rw [g2, htm]
          simp
    · exact ⟨fun _ => rfl, by simp [TxW.stop]⟩
  · intro o2 hinv
    constructor
    · simp only [OuterSimple.start]
      by_cases h2 : o2.isRunning = true
      · rw [if_pos h2]
        exact hinv
      · rw [if_neg h2]
        have hf : o2.isRunning = false := by
          cases hq : o2.isRunning
          · rfl
          · exact absurd hq h2
        have htm : o2.timers = [] := hinv.1 hf
        refine ⟨fun hn => ?_, ?_⟩
        · exact absurd hn (by simp)
        · show (o2.timers ++ _).length ≤ 1
          rw [htm]
          simp
    · exact ⟨fun _ => rfl, by simp [OuterSimple.stop]⟩

/-- C10, witness: already-running instances of all three watchers. -/
theorem c10_witness :
    ((TxW.start ⟨15000, [], [], some 1, [15000], false⟩ []).intervalId = some 1
      ∧ (TxW.start ⟨15000, [], [], some 1, [15000], false⟩ []).timers = [15000])
    ∧ OuterSimple.start ⟨20000, [], true, some 1, [20000]⟩
        = ⟨20000, [], true, some 1, [20000]⟩
    ∧ BwBig.start ⟨15000, ["a"], true, some 1, [15000]⟩
        = Except.ok ⟨15000, ["a"], true, some 1, [15000]⟩ :=
  have h := c10_theorem ⟨15000, [], [], some 1, [15000], false⟩ []
    ⟨20000, [], true, some 1, [20000]⟩ ⟨15000, ["a"], true, some 1, [15000]⟩
    rfl rfl rfl
  ⟨h.1, h.2.1, h.2.2.1⟩
